import Mathlib

/-!
# Game of Life assignments: grid store, pattern placement, bounding boxes

Shallow embedding of

* `Assignments/Program 03 - 04/src/SDL_GOL_main.cpp`
  (`ConwayLifeInteractive`, `loadPattern`), and
* `Assignments/Program 02/main.cpp` (`compute_bounds` and the centring and
  shifting arithmetic of `main`).

Conventions.

* A C++ `int` is a mathematical integer in `[-2^31, 2^31)`; every `+`, `-`, `*`
  of the source is followed by `wrap32` (two's complement wrap-around).
* A `std::vector` is a `List`.  An access `v[i]` outside the vector, a
  `const` lookup of a missing JSON key and a JSON type error have no defined
  result in the source; the embedding returns `none` there, so `some _` means
  "returned normally".
-/

/-! ## Machine integers -/

/-- Value stored in a 32-bit `int` when the mathematical result is `z`. -/
def wrap32 (z : Int) : Int := (z + 2147483648) % 4294967296 - 2147483648

/-- The integer `z` is representable in a 32-bit `int`. -/
def isInt32 (z : Int) : Prop := -2147483648 ≤ z ∧ z < 2147483648

instance (z : Int) : Decidable (isInt32 z) := by
  unfold isInt32; infer_instance

/-! ## The grid store (`ConwayLifeInteractive`) -/

/-- Modelled from the spec: the data members `rows`, `cols` and `grid` are
declared in the base class `ConwayLife` (`../includes/ConwayLife.hpp`), which is
not among the source files.  Their types are read off their uses in
`SDL_GOL_main.cpp`: `rows` and `cols` are compared with `int` counters and
`getGridRef` returns `grid` as a `std::vector<std::vector<int>>`. -/
structure ConwayLifeInteractive where
  rows : Int
  cols : Int
  grid : List (List Int)
deriving DecidableEq, Repr

namespace ConwayLifeInteractive

/-- Representation invariant of the grid (spec §3): `grid` has `rows` rows and
every row has exactly `cols` entries; `rows` and `cols` are `int` values. -/
def WellFormed (g : ConwayLifeInteractive) : Prop :=
  isInt32 g.rows ∧ isInt32 g.cols ∧ (g.grid.length : Int) = g.rows ∧
    ∀ row ∈ g.grid, (row.length : Int) = g.cols

instance (g : ConwayLifeInteractive) : Decidable g.WellFormed := by
  unfold WellFormed; infer_instance

/-- Every stored cell is `0` (dead) or `1` (alive). -/
def Binary (g : ConwayLifeInteractive) : Prop :=
  ∀ row ∈ g.grid, ∀ v ∈ row, v = 0 ∨ v = 1

instance (g : ConwayLifeInteractive) : Decidable g.Binary := by
  unfold Binary; infer_instance

/-- The read `grid[r][c]` of the source; `none` when an index is outside its
vector. -/
def load (g : ConwayLifeInteractive) (r c : Nat) : Option Int :=
  match g.grid[r]? with
  | none => none
  | some row => row[c]?

/-- The assignment `grid[r][c] = v` of the source; `none` when an index is
outside its vector. -/
def store (g : ConwayLifeInteractive) (r c : Nat) (v : Int) :
    Option ConwayLifeInteractive :=
  match g.grid[r]? with
  | none => none
  | some row =>
    if c < row.length then some { g with grid := g.grid.set r (row.set c v) }
    else none

/-- Method `ConwayLifeInteractive::clearAll`: the two nested counting loops
`for (r = 0; r < rows; ++r) for (c = 0; c < cols; ++c) grid[r][c] = 0`. -/
def clearAll (g : ConwayLifeInteractive) : Option ConwayLifeInteractive :=
  (List.range g.rows.toNat).foldlM
    (fun g1 r => (List.range g.cols.toNat).foldlM (fun g2 c => g2.store r c 0) g1) g

/-- Method `ConwayLifeInteractive::setCell`: bounds check, then
`grid[r][c] = value ? 1 : 0`. -/
def setCell (g : ConwayLifeInteractive) (r c value : Int) :
    Option ConwayLifeInteractive :=
  if r < 0 ∨ r ≥ g.rows ∨ c < 0 ∨ c ≥ g.cols then some g
  else g.store r.toNat c.toNat (if value ≠ 0 then 1 else 0)

/-- Method `ConwayLifeInteractive::getCell`: bounds check, then `grid[r][c]`. -/
def getCell (g : ConwayLifeInteractive) (r c : Int) : Option Int :=
  if r < 0 ∨ r ≥ g.rows ∨ c < 0 ∨ c ≥ g.cols then some 0
  else g.load r.toNat c.toNat

/-- Method `ConwayLifeInteractive::getGridRef`. -/
def getGridRef (g : ConwayLifeInteractive) : List (List Int) := g.grid

end ConwayLifeInteractive

open ConwayLifeInteractive


/-! ## Pattern data (`nlohmann::json`) -/

/-- Modelled from the spec: the type `json` comes from the JSON header pulled in
by `../includes/argsToJson.hpp` (Program 03 - 04) and `json.hpp` (Program 02),
neither of which is among the source files.  Spec §6 describes the pattern
source as a mapping from shape name to a record with an ordered list of
`(x, y)` integer pairs; the constructors below are the JSON values such a
document is built from.  Floating-point numbers are left out. -/
inductive json where
  | null : json
  | bool : Bool → json
  | number : Int → json
  | string : String → json
  | array : List json → json
  | object : List (String × json) → json

namespace json

/-- Call `j.is_null()`. -/
def is_null : json → Bool
  | null => true
  | _ => false

/-- Call `j.contains(key)`: true exactly for an object that has the key. -/
def contains : json → String → Bool
  | object members, key => (members.lookup key).isSome
  | _, _ => false

/-- Access `j[key]` on a `const json&`: the member of an object; there is no defined
result for a missing key or a value that is not an object (`none`). -/
def index : json → String → Option json
  | object members, key => members.lookup key
  | _, _ => none

/-- The sequence a range-based `for` visits: the elements of an array, the
member values of an object, nothing for `null`, the value itself otherwise. -/
def items : json → List json
  | array elements => elements
  | object members => members.map Prod.snd
  | null => []
  | j => [j]

/-- Conversion `int x = j`: a number is cast to `int`, a boolean becomes 0 or
1, every other value is a type error (`none`). -/
def toInt : json → Option Int
  | number n => some (wrap32 n)
  | bool b => some (if b then 1 else 0)
  | _ => none

end json

/-! ## `loadPattern` -/

/-- Body of the placement loop of `loadPattern` for one element `cell` of
`shape["cells"]`: read `x` and `y`, add the centre, call `setCell(r, c, 1)`. -/
def placeCell (centerR centerC : Int) (gol : ConwayLifeInteractive) (cell : json) :
    Option ConwayLifeInteractive :=
  match cell.index "x" with
  | none => none
  | some jx =>
    match jx.toInt with
    | none => none
    | some x =>
      match cell.index "y" with
      | none => none
      | some jy =>
        match jy.toInt with
        | none => none
        | some y =>
          let r := wrap32 (centerR + y)
          let c := wrap32 (centerC + x)
          gol.setCell r c 1

/-- Local `rows` of `loadPattern`: `static_cast<int>(gridRef.size())`. -/
def gridRows (gol : ConwayLifeInteractive) : Int := wrap32 gol.getGridRef.length

/-- Local `cols` of `loadPattern`:
`rows > 0 ? static_cast<int>(gridRef[0].size()) : 0`. -/
def gridCols (gol : ConwayLifeInteractive) : Option Int :=
  if gridRows gol > 0 then
    match gol.getGridRef[0]? with
    | none => none
    | some row0 => some (wrap32 row0.length)
  else some 0

/-- Function `loadPattern(patternData, gol, name)`; the result is the state of `gol`
when the function returns, `none` when it does not return normally.  The two
messages written to `std::cerr` are not part of the model. -/
def loadPattern (patternData : json) (gol : ConwayLifeInteractive) (name : String) :
    Option ConwayLifeInteractive :=
  if patternData.is_null || !patternData.contains "shapes" then some gol
  else
    (patternData.index "shapes").bind fun shapes =>
      if !shapes.contains name then some gol
      else
        (shapes.index name).bind fun shape =>
          (gridCols gol).bind fun cols =>
            let centerR := Int.tdiv (gridRows gol) 2
            let centerC := Int.tdiv cols 2
            gol.clearAll.bind fun cleared =>
              (shape.index "cells").bind fun cells =>
                cells.items.foldlM (placeCell centerR centerC) cleared

/-- The pair `(x, y)` that the placement loop reads from one element of
`shape["cells"]`. -/
def cellOffset (cell : json) : Option (Int × Int) :=
  match cell.index "x", cell.index "y" with
  | some jx, some jy =>
    match jx.toInt, jy.toInt with
    | some x, some y => some (x, y)
    | _, _ => none
  | _, _ => none

/-- The catalog `patternData` contains the shape `name`, and its offset list is
the result: `patternData["shapes"][name]["cells"]` read as `(x, y)` pairs of
`int`.  `none` when the name (or a level above or below it) is missing or an
entry is not a pair of integers. -/
def catalogOffsets (patternData : json) (name : String) : Option (List (Int × Int)) :=
  match patternData.index "shapes" with
  | none => none
  | some shapes =>
    match shapes.index name with
    | none => none
    | some shape =>
      match shape.index "cells" with
      | none => none
      | some cells => cells.items.mapM cellOffset

/-- The record stored under `name` in the catalog, `none` when the catalog has
no shape of that name (or no `"shapes"` table at all). -/
def catalogLookup (patternData : json) (name : String) : Option json :=
  match patternData.index "shapes" with
  | none => none
  | some shapes => shapes.index name

/-- A 10 × 10 grid with every cell alive. -/
def fullGrid10 : ConwayLifeInteractive :=
  ⟨10, 10, List.replicate 10 (List.replicate 10 1)⟩

/-- A catalog with the single shape `"dot"`, whose only offset is `(0, 0)`. -/
def dotCatalog : json :=
  json.object [("shapes", json.object [("dot", json.object
    [("cells", json.array [json.object [("x", json.number 0), ("y", json.number 0)]])])])]

/-- A 2 × 2 grid with every cell alive. -/
def fullGrid2 : ConwayLifeInteractive := ⟨2, 2, [[1, 1], [1, 1]]⟩

/-- A catalog whose `"shapes"` table is empty. -/
def emptyCatalog : json := json.object [("shapes", json.object [])]

/-! ## Program 02: bounding box and centring -/

/-- Source `struct Cell`. -/
structure Cell where
  x : Int
  y : Int
deriving DecidableEq, Repr

/-- Source `struct Shape`. -/
structure Shape where
  name : String
  width : Int
  height : Int
  cells : List Cell
deriving DecidableEq, Repr

/-- Source `struct Bounds`. -/
structure Bounds where
  min_x : Int
  max_x : Int
  min_y : Int
  max_y : Int
deriving DecidableEq, Repr

/-- Body of the loop of `compute_bounds`: the four conditional updates, in
the order of the source. -/
def boundsStep (b : Bounds) (c : Cell) : Bounds :=
  let b1 := if c.x < b.min_x then { b with min_x := c.x } else b
  let b2 := if c.x > b1.max_x then { b1 with max_x := c.x } else b1
  let b3 := if c.y < b2.min_y then { b2 with min_y := c.y } else b2
  if c.y > b3.max_y then { b3 with max_y := c.y } else b3

/-- Function `compute_bounds(shape)`; `none` would be a read of `shape.cells[0]` outside
the vector. -/
def compute_bounds (shape : Shape) : Option Bounds :=
  if shape.cells.isEmpty then some ⟨0, 0, 0, 0⟩
  else
    match shape.cells[0]? with
    | none => none
    | some c0 => some (shape.cells.foldl boundsStep ⟨c0.x, c0.x, c0.y, c0.y⟩)

/-- Constant `const int cellSize = 20`. -/
def cellSize : Int := 20

/-- Constant `const int gridWidth = 30`. -/
def gridWidth : Int := 30

/-- Constant `const int gridHeight = 20`. -/
def gridHeight : Int := 20

/-- Local of `main`: `windowWidth = cellSize * gridWidth`. -/
def windowWidth : Int := wrap32 (cellSize * gridWidth)

/-- Local of `main`: `windowHeight = cellSize * gridHeight`. -/
def windowHeight : Int := wrap32 (cellSize * gridHeight)

/-- Division of two `int`s, rounding toward zero; `none` for a zero divisor. -/
def intDiv (a b : Int) : Option Int :=
  if b = 0 then none else some (wrap32 (Int.tdiv a b))

/-- Local of `main`: `shapeWidthCells = b.max_x - b.min_x + 1`. -/
def shapeWidthCells (b : Bounds) : Int := wrap32 (wrap32 (b.max_x - b.min_x) + 1)

/-- Local of `main`: `shapeHeightCells = b.max_y - b.min_y + 1`. -/
def shapeHeightCells (b : Bounds) : Int := wrap32 (wrap32 (b.max_y - b.min_y) + 1)

/-- Local of `main`: `patternPixelWidth = shapeWidthCells * cellSize`. -/
def patternPixelWidth (b : Bounds) : Int := wrap32 (shapeWidthCells b * cellSize)

/-- Local of `main`: `patternPixelHeight = shapeHeightCells * cellSize`. -/
def patternPixelHeight (b : Bounds) : Int := wrap32 (shapeHeightCells b * cellSize)

/-- Local of `main`: `offsetX = (windowWidth - patternPixelWidth) / 2`. -/
def offsetX (b : Bounds) : Option Int := intDiv (wrap32 (windowWidth - patternPixelWidth b)) 2

/-- Local of `main`: `offsetY = (windowHeight - patternPixelHeight) / 2`. -/
def offsetY (b : Bounds) : Option Int := intDiv (wrap32 (windowHeight - patternPixelHeight b)) 2

/-- Local of `main`: `gridX = c.x - b.min_x`. -/
def gridX (b : Bounds) (c : Cell) : Int := wrap32 (c.x - b.min_x)

/-- Local of `main`: `gridY = c.y - b.min_y`. -/
def gridY (b : Bounds) (c : Cell) : Int := wrap32 (c.y - b.min_y)

/-- Type `SDL_Rect`, as far as `main` fills it in. -/
structure Rect where
  x : Int
  y : Int
  w : Int
  h : Int
deriving DecidableEq, Repr

/-- The rectangle drawn for one cell in the drawing loop of `main`. -/
def cellRect (b : Bounds) (offX offY : Int) (c : Cell) : Rect :=
  { x := wrap32 (offX + wrap32 (gridX b c * cellSize))
    y := wrap32 (offY + wrap32 (gridY b c * cellSize))
    w := cellSize
    h := cellSize }

/-- The rectangles of one frame of `main` for an already loaded `shape`:
bounds, centring offsets, then one rectangle per cell. -/
def frameRects (shape : Shape) : Option (List Rect) :=
  (compute_bounds shape).bind fun b =>
    (offsetX b).bind fun offX =>
      (offsetY b).bind fun offY =>
        some (shape.cells.map (cellRect b offX offY))

/-- The shape with offsets `(-1, -1)` and `(1, 1)`. -/
def diagShape : Shape := ⟨"diag", 3, 3, [⟨-1, -1⟩, ⟨1, 1⟩]⟩

/-- A shape without offsets. -/
def emptyShape : Shape := ⟨"empty", 0, 0, []⟩

/-- A shape whose two offsets are as far apart in `x` as `int` allows. -/
def wideShape : Shape := ⟨"wide", 0, 0, [⟨-2147483648, 0⟩, ⟨2147483647, 0⟩]⟩

/-! ## The automaton engine (`ConwayLife::step`) -/

/-- Modelled from the spec: the state of position `(r, c)` in the current
generation as the engine `ConwayLife` (`../includes/ConwayLife.hpp`, not among
the source files) sees it. Spec §4.2: cells outside `[0, rows) × [0, cols)`
are treated as permanently dead. -/
def currentState (g : ConwayLifeInteractive) (r c : Int) : Int :=
  if r < 0 ∨ r ≥ g.rows ∨ c < 0 ∨ c ≥ g.cols then 0
  else (g.load r.toNat c.toNat).getD 0

/-- Modelled from the spec: the 8 adjacent positions of `(r, c)` that the
engine of `ConwayLife.hpp` (not among the source files) visits, spec §4.2
step 1; no position wraps to the opposite edge. -/
def adjacent (r c : Int) : List (Int × Int) :=
  [(r - 1, c - 1), (r - 1, c), (r - 1, c + 1), (r, c - 1), (r, c + 1),
   (r + 1, c - 1), (r + 1, c), (r + 1, c + 1)]

/-- Modelled from the spec: the live-neighbour count of `ConwayLife.hpp` (not
among the source files), spec §4.2 step 1: the live cells among the 8 adjacent
positions, every position outside the grid counting as dead. -/
def liveNeighbors (g : ConwayLifeInteractive) (r c : Int) : Nat :=
  (adjacent r c).countP fun p => currentState g p.1 p.2 = 1

/-- Modelled from the spec: the next-state rule of `ConwayLife.hpp` (not among
the source files), spec §4.2 step 2: a live cell with 2 or 3 live neighbours
stays alive, a dead cell with exactly 3 becomes alive, every other cell is
dead. -/
def nextState (state : Int) (n : Nat) : Int :=
  if state = 1 then (if n = 2 ∨ n = 3 then 1 else 0)
  else (if n = 3 then 1 else 0)

/-- Modelled from the spec: `ConwayLife::step`, defined in
`../includes/ConwayLife.hpp`, which is not among the source files (only the
call `gol.step()` in `main` is). Spec §4.2 steps 3 and 4: the whole next
generation is computed from the current one, then replaces it. -/
def step (g : ConwayLifeInteractive) : ConwayLifeInteractive :=
  { g with
    grid := (List.range g.rows.toNat).map fun (r : Nat) =>
      (List.range g.cols.toNat).map fun (c : Nat) =>
        nextState (currentState g (r : Int) (c : Int)) (liveNeighbors g (r : Int) (c : Int)) }

/-- One when `getCell(r, c)` reads a live cell, 0 otherwise. -/
def aliveAt (g : ConwayLifeInteractive) (r c : Int) : Nat :=
  if g.getCell r c = some 1 then 1 else 0

/-- The number of the 8 adjacent positions of `(r, c)` at which `getCell`
reads a live cell. -/
def aliveNeighbours (g : ConwayLifeInteractive) (r c : Int) : Nat :=
  aliveAt g (r - 1) (c - 1) + aliveAt g (r - 1) c + aliveAt g (r - 1) (c + 1) +
  aliveAt g r (c - 1) + aliveAt g r (c + 1) +
  aliveAt g (r + 1) (c - 1) + aliveAt g (r + 1) c + aliveAt g (r + 1) (c + 1)

/-- A horizontal blinker in the middle row of a 3 × 3 grid. -/
def blinker : ConwayLifeInteractive := ⟨3, 3, [[0, 0, 0], [1, 1, 1], [0, 0, 0]]⟩
/-! ## Grid store: helper lemmas -/

theorem wf_row_length {g : ConwayLifeInteractive} (hg : g.WellFormed) {i : Nat}
    {row : List Int} (h : g.grid[i]? = some row) : (row.length : Int) = g.cols :=
  hg.2.2.2 row (List.getElem?_mem h)

theorem wf_exists_row {g : ConwayLifeInteractive} (hg : g.WellFormed) {i : Nat}
    (hi : (i : Int) < g.rows) : ∃ row, g.grid[i]? = some row ∧ (row.length : Int) = g.cols := by
  have hlen : i < g.grid.length := by have := hg.2.2.1; omega
  exact ⟨g.grid[i], List.getElem?_eq_getElem hlen,
    hg.2.2.2 _ (List.getElem_mem hlen)⟩

/-- On a well-formed grid an in-range store succeeds and yields the grid with
that one entry replaced. -/
theorem store_eq_some {g : ConwayLifeInteractive} (hg : g.WellFormed) {i j : Nat}
    (hi : (i : Int) < g.rows) (hj : (j : Int) < g.cols) (v : Int) :
    ∃ row, g.grid[i]? = some row ∧
      g.store i j v = some { g with grid := g.grid.set i (row.set j v) } := by
  obtain ⟨row, hrow, hlen⟩ := wf_exists_row hg hi
  refine ⟨row, hrow, ?_⟩
  have : j < row.length := by omega
  simp [store, hrow, this]

theorem store_wf {g g1 : ConwayLifeInteractive} (hg : g.WellFormed) {i j : Nat} {v : Int}
    (h : g.store i j v = some g1) :
    g1.WellFormed ∧ g1.rows = g.rows ∧ g1.cols = g.cols := by
  unfold store at h
  split at h
  · exact absurd h (by simp)
  · rename_i row hrow
    split at h
    · simp only [Option.some.injEq] at h
      subst h
      refine ⟨⟨hg.1, hg.2.1, ?_, ?_⟩, rfl, rfl⟩
      · simpa using hg.2.2.1
      · intro r hr
        rcases List.mem_or_eq_of_mem_set hr with h1 | h1
        · exact hg.2.2.2 r h1
        · subst h1
          simpa using wf_row_length hg hrow
    · exact absurd h (by simp)

theorem load_store {g g1 : ConwayLifeInteractive} {i j : Nat} {v : Int}
    (h : g.store i j v = some g1) (i1 j1 : Nat) :
    g1.load i1 j1 = if i1 = i ∧ j1 = j then some v else g.load i1 j1 := by
  unfold store at h
  split at h
  · exact absurd h (by simp)
  · rename_i row hrow
    split at h
    · rename_i hj
      simp only [Option.some.injEq] at h
      subst h
      have hi : i < g.grid.length := by
        rcases List.getElem?_eq_some_iff.1 hrow with ⟨w, _⟩
        exact w
      by_cases h1 : i1 = i
      · subst h1
        by_cases h2 : j1 = j
        · subst h2
          simp [load, List.getElem?_set, hi, hj]
        · have h3 : ¬ j = j1 := fun e => h2 e.symm
          simp [load, List.getElem?_set, hi, h2, h3, hrow]
      · have h3 : ¬ i = i1 := fun e => h1 e.symm
        simp [load, List.getElem?_set, h1, h3]
    · exact absurd h (by simp)

/-- The inner loop of `clearAll` run for its first `n` columns of row `i`. -/
theorem clearRow_spec {g : ConwayLifeInteractive} (hg : g.WellFormed) {i : Nat}
    (hi : (i : Int) < g.rows) (n : Nat) (hn : (n : Int) ≤ g.cols) :
    ∃ g1, (List.range n).foldlM (fun g2 c => g2.store i c 0) g = some g1 ∧
      g1.WellFormed ∧ g1.rows = g.rows ∧ g1.cols = g.cols ∧
      ∀ i1 j1, g1.load i1 j1 = if i1 = i ∧ j1 < n then some 0 else g.load i1 j1 := by
  induction n with
  | zero => exact ⟨g, by simp, hg, rfl, rfl, by simp⟩
  | succ n ih =>
    obtain ⟨g1, h1, hwf, hr, hc, hl⟩ := ih (by omega)
    obtain ⟨row, _, hst⟩ := store_eq_some hwf (i := i) (j := n) (by omega) (by omega) 0
    obtain ⟨hwf2, hr2, hc2⟩ := store_wf hwf hst
    refine ⟨_, ?_, hwf2, by omega, by omega, ?_⟩
    · simp [List.range_succ, List.foldlM_append, h1, hst]
    · intro i1 j1
      rw [load_store hst, hl]
      by_cases h3 : i1 = i
      · by_cases h4 : j1 = n
        · simp [h3, h4]
        · by_cases h5 : j1 < n
          · have : j1 < n + 1 := by omega
            simp [h3, h4, h5, this]
          · have : ¬ j1 < n + 1 := by omega
            simp [h3, h4, h5, this]
      · simp [h3]

/-- The outer loop of `clearAll` run for its first `m` rows. -/
theorem clearRows_spec {g : ConwayLifeInteractive} (hg : g.WellFormed) (k : Nat)
    (hk : (k : Int) ≤ g.cols) (m : Nat) (hm : (m : Int) ≤ g.rows) :
    ∃ g1, (List.range m).foldlM
        (fun g1 r => (List.range k).foldlM (fun g2 c => g2.store r c 0) g1) g = some g1 ∧
      g1.WellFormed ∧ g1.rows = g.rows ∧ g1.cols = g.cols ∧
      ∀ i1 j1, g1.load i1 j1 = if i1 < m ∧ j1 < k then some 0 else g.load i1 j1 := by
  induction m with
  | zero => exact ⟨g, by simp, hg, rfl, rfl, by simp⟩
  | succ m ih =>
    obtain ⟨g1, h1, hwf, hr, hc, hl⟩ := ih (by omega)
    obtain ⟨g2, h2, hwf2, hr2, hc2, hl2⟩ :=
      clearRow_spec hwf (i := m) (by omega) k (by omega)
    refine ⟨g2, ?_, hwf2, by omega, by omega, ?_⟩
    · simp [List.range_succ, List.foldlM_append, h1, h2]
    · intro i1 j1
      rw [hl2, hl]
      by_cases h3 : i1 = m
      · by_cases h4 : j1 < k
        · simp [h3, h4]
        · simp [h3, h4]
      · by_cases h5 : i1 < m
        · have : i1 < m + 1 := by omega
          simp [h3, h5, this]
        · have : ¬ i1 < m + 1 := by omega
          simp [h3, h5, this]

/-- Method `clearAll` returns on every well-formed grid; the result has the same
dimensions and every stored entry inside `rows × cols` is `0`. -/
theorem clearAll_spec {g : ConwayLifeInteractive} (hg : g.WellFormed) :
    ∃ g1, g.clearAll = some g1 ∧ g1.WellFormed ∧ g1.rows = g.rows ∧ g1.cols = g.cols ∧
      ∀ r c : Int, 0 ≤ r → r < g.rows → 0 ≤ c → c < g.cols → g1.getCell r c = some 0 := by
  by_cases hrows : g.rows ≤ 0
  · have h0 : g.rows.toNat = 0 := by omega
    refine ⟨g, by simp [clearAll, h0], hg, rfl, rfl, ?_⟩
    intro r c h1 h2
    omega
  · have hc0 : 0 ≤ g.cols := by
      obtain ⟨row, _, hlen⟩ := wf_exists_row hg (i := 0) (by omega)
      omega
    by_cases hcols : g.cols ≤ 0
    · obtain ⟨g1, h1, hwf, hr, hc, _⟩ :=
        clearRows_spec hg g.cols.toNat (by omega) g.rows.toNat (by omega)
      refine ⟨g1, h1, hwf, hr, hc, ?_⟩
      intro r c _ _ h3 h4
      omega
    · obtain ⟨g1, h1, hwf, hr, hc, hl⟩ :=
        clearRows_spec hg g.cols.toNat (by omega) g.rows.toNat (by omega)
      refine ⟨g1, h1, hwf, hr, hc, ?_⟩
      intro r c h1 h2 h3 h4
      have hcond : ¬ (r < 0 ∨ r ≥ g1.rows ∨ c < 0 ∨ c ≥ g1.cols) := by omega
      have h5 : r.toNat < g.rows.toNat ∧ c.toNat < g.cols.toNat := by omega
      simp only [getCell, hcond, if_false, hl, h5, and_self, if_true]

/-! ## Grid store: the claims -/

/-- C1: outside `[0, rows) × [0, cols)`, `getCell` returns 0 (dead) and
`setCell` with any value returns leaving the whole grid as it was. This holds
for every grid value, well-formed or not. -/
theorem C1_out_of_range_get_set (g : ConwayLifeInteractive) (r c : Int)
    (h : r < 0 ∨ r ≥ g.rows ∨ c < 0 ∨ c ≥ g.cols) :
    g.getCell r c = some 0 ∧ ∀ v : Int, g.setCell r c v = some g := by
  constructor
  · simp [getCell, h]
  · intro v
    simp [setCell, h]

/-- C1 at row `-1` of the 2 × 2 grid of live cells. -/
theorem C1_out_of_range_get_set_witness :
    ((-1 : Int) < 0 ∨ (-1 : Int) ≥ fullGrid2.rows ∨ (0 : Int) < 0 ∨ (0 : Int) ≥ fullGrid2.cols) ∧
    fullGrid2.getCell (-1) 0 = some 0 ∧ ∀ v : Int, fullGrid2.setCell (-1) 0 v = some fullGrid2 :=
  ⟨by decide, C1_out_of_range_get_set fullGrid2 (-1) 0 (by decide)⟩

/-- C2: on a well-formed grid, `setCell r c v` at an in-range coordinate
returns a grid in which `getCell r c` is 1 when `v` is non-zero and 0 when `v`
is zero, and `getCell` at every other coordinate (in range or not) returns
what it returned before. -/
theorem C2_setCell_in_range (g : ConwayLifeInteractive) (hg : g.WellFormed)
    (r c v : Int) (hr0 : 0 ≤ r) (hr : r < g.rows) (hc0 : 0 ≤ c) (hc : c < g.cols) :
    ∃ g1, g.setCell r c v = some g1 ∧ g1.rows = g.rows ∧ g1.cols = g.cols ∧
      g1.getCell r c = some (if v ≠ 0 then 1 else 0) ∧
      ∀ r1 c1 : Int, (r1, c1) ≠ (r, c) → g1.getCell r1 c1 = g.getCell r1 c1 := by
  have hcond : ¬ (r < 0 ∨ r ≥ g.rows ∨ c < 0 ∨ c ≥ g.cols) := by omega
  obtain ⟨row, _, hst⟩ := store_eq_some hg (i := r.toNat) (j := c.toNat)
    (by omega) (by omega) (if v ≠ 0 then 1 else 0)
  obtain ⟨_, hr2, hc2⟩ := store_wf hg hst
  refine ⟨_, by simp only [setCell, hcond, if_false]; exact hst, hr2, hc2, ?_, ?_⟩
  · have hcond2 : ¬ (r < 0 ∨ r ≥ g.rows ∨ c < 0 ∨ c ≥ g.cols) := hcond
    simp only [getCell]
    rw [if_neg hcond2, load_store hst]
    simp
  · intro r1 c1 hne
    simp only [getCell]
    by_cases h1 : r1 < 0 ∨ r1 ≥ g.rows ∨ c1 < 0 ∨ c1 ≥ g.cols
    · rw [if_pos h1, if_pos h1]
    · rw [if_neg h1, if_neg h1, load_store hst]
      have : ¬ (r1.toNat = r.toNat ∧ c1.toNat = c.toNat) := by
        rintro ⟨e1, e2⟩
        apply hne
        have : r1 = r := by omega
        have : c1 = c := by omega
        simp [*]
      rw [if_neg this]

/-- C2 at cell `(0, 1)` of the 2 × 2 grid of live cells, written with 0. -/
theorem C2_setCell_in_range_witness :
    fullGrid2.WellFormed ∧ fullGrid2.setCell 0 1 0 = some ⟨2, 2, [[1, 0], [1, 1]]⟩ ∧
    ∃ g1, fullGrid2.setCell 0 1 0 = some g1 ∧ g1.rows = fullGrid2.rows ∧
      g1.cols = fullGrid2.cols ∧
      g1.getCell 0 1 = some (if (0 : Int) ≠ 0 then 1 else 0) ∧
      ∀ r1 c1 : Int, (r1, c1) ≠ (0, 1) → g1.getCell r1 c1 = fullGrid2.getCell r1 c1 :=
  ⟨by decide, by decide,
    C2_setCell_in_range fullGrid2 (by decide) 0 1 0 (by decide) (by decide) (by decide)
      (by decide)⟩

/-- C3: on a well-formed grid, whatever it holds, `clearAll` returns a grid of
the same dimensions in which `getCell r c` is 0 (dead) for every in-range
`(r, c)`. -/
theorem C3_clearAll_all_dead (g : ConwayLifeInteractive) (hg : g.WellFormed) :
    ∃ g1, g.clearAll = some g1 ∧ g1.rows = g.rows ∧ g1.cols = g.cols ∧
      g1.grid.length = g.grid.length ∧
      ∀ r c : Int, 0 ≤ r → r < g.rows → 0 ≤ c → c < g.cols → g1.getCell r c = some 0 := by
  obtain ⟨g1, h1, hwf, hr, hc, hall⟩ := clearAll_spec hg
  refine ⟨g1, h1, hr, hc, ?_, hall⟩
  have h2 := hwf.2.2.1
  have h3 := hg.2.2.1
  omega

/-- C3 at the 2 × 2 grid of live cells. -/
theorem C3_clearAll_all_dead_witness :
    fullGrid2.WellFormed ∧ fullGrid2.clearAll = some ⟨2, 2, [[0, 0], [0, 0]]⟩ ∧
    ∃ g1, fullGrid2.clearAll = some g1 ∧ g1.rows = fullGrid2.rows ∧
      g1.cols = fullGrid2.cols ∧ g1.grid.length = fullGrid2.grid.length ∧
      ∀ r c : Int, 0 ≤ r → r < fullGrid2.rows → 0 ≤ c → c < fullGrid2.cols →
        g1.getCell r c = some 0 :=
  ⟨by decide, by decide, C3_clearAll_all_dead fullGrid2 (by decide)⟩

/-! ## `loadPattern`: helper lemmas -/

theorem wrap32_of_isInt32 {z : Int} (h : isInt32 z) : wrap32 z = z := by
  unfold isInt32 at h
  unfold wrap32
  omega

theorem isInt32_wrap32 (z : Int) : isInt32 (wrap32 z) := by
  unfold isInt32 wrap32
  omega

/-- Method `setCell` returns on every well-formed grid, whatever the coordinate; it
changes at most the addressed cell. -/
theorem setCell_spec {g : ConwayLifeInteractive} (hg : g.WellFormed) (r c v : Int) :
    ∃ g1, g.setCell r c v = some g1 ∧ g1.WellFormed ∧ g1.rows = g.rows ∧ g1.cols = g.cols ∧
      ∀ r1 c1 : Int, 0 ≤ r1 → r1 < g.rows → 0 ≤ c1 → c1 < g.cols →
        g1.getCell r1 c1 =
          if r1 = r ∧ c1 = c then some (if v ≠ 0 then 1 else 0) else g.getCell r1 c1 := by
  by_cases hcond : r < 0 ∨ r ≥ g.rows ∨ c < 0 ∨ c ≥ g.cols
  · refine ⟨g, by simp [setCell, hcond], hg, rfl, rfl, ?_⟩
    intro r1 c1 h1 h2 h3 h4
    have : ¬ (r1 = r ∧ c1 = c) := by omega
    rw [if_neg this]
  · obtain ⟨row, _, hst⟩ := store_eq_some hg (i := r.toNat) (j := c.toNat)
      (by omega) (by omega) (if v ≠ 0 then 1 else 0)
    obtain ⟨hwf, hr2, hc2⟩ := store_wf hg hst
    refine ⟨_, by simp only [setCell, hcond, if_false]; exact hst, hwf, hr2, hc2, ?_⟩
    intro r1 c1 h1 h2 h3 h4
    have hin : ¬ (r1 < 0 ∨ r1 ≥ g.rows ∨ c1 < 0 ∨ c1 ≥ g.cols) := by omega
    simp only [getCell]
    rw [if_neg hin, if_neg hin, load_store hst]
    by_cases h5 : r1 = r ∧ c1 = c
    · have : r1.toNat = r.toNat ∧ c1.toNat = c.toNat := by omega
      rw [if_pos this, if_pos h5]
    · have : ¬ (r1.toNat = r.toNat ∧ c1.toNat = c.toNat) := by omega
      rw [if_neg this, if_neg h5]

theorem json_index_of_contains {j : json} {key : String} (h : j.contains key = true) :
    ∃ v, j.index key = some v := by
  cases j with
  | object members =>
    cases hl : List.lookup key members with
    | none =>
      rw [json.contains, hl] at h
      exact absurd h (by simp)
    | some v => exact ⟨v, by rw [json.index, hl]⟩
  | null => exact absurd h (by simp [json.contains])
  | bool b => exact absurd h (by simp [json.contains])
  | number n => exact absurd h (by simp [json.contains])
  | string s => exact absurd h (by simp [json.contains])
  | array a => exact absurd h (by simp [json.contains])

theorem json_contains_of_index {j : json} {key : String} {v : json}
    (h : j.index key = some v) : j.contains key = true := by
  cases j <;> simp [json.index] at h
  simp [json.contains, h]

theorem json_not_null_of_index {j : json} {key : String} {v : json}
    (h : j.index key = some v) : j.is_null = false := by
  cases j <;> simp [json.index] at h
  rfl

/-- One iteration of the placement loop, in terms of the offset it reads. -/
theorem placeCell_eq (cr cc : Int) (g : ConwayLifeInteractive) (cell : json) :
    placeCell cr cc g cell =
      match cellOffset cell with
      | none => none
      | some p => g.setCell (wrap32 (cr + p.2)) (wrap32 (cc + p.1)) 1 := by
  unfold placeCell cellOffset
  cases cell.index "x" <;> cases cell.index "y" <;> simp
  · rename_i jx
    cases jx.toInt <;> simp
  · rename_i jx jy
    cases jx.toInt <;> cases jy.toInt <;> simp

theorem cellOffset_isInt32 {cell : json} {p : Int × Int} (h : cellOffset cell = some p) :
    isInt32 p.1 ∧ isInt32 p.2 := by
  have key : ∀ (j : json) (n : Int), j.toInt = some n → isInt32 n := by
    intro j n hn
    cases j <;> simp [json.toInt] at hn
    · rename_i b
      subst hn
      cases b <;> simp [isInt32]
    · subst hn
      exact isInt32_wrap32 _
  unfold cellOffset at h
  split at h
  · rename_i jx jy _ _
    split at h
    · rename_i x y hx hy
      simp only [Option.some.injEq] at h
      subst h
      exact ⟨key _ _ hx, key _ _ hy⟩
    · exact absurd h (by simp)
  · exact absurd h (by simp)

theorem mapM_cellOffset_cons {cell : json} {rest : List json} {L : List (Int × Int)}
    (h : (cell :: rest).mapM cellOffset = some L) :
    ∃ p L1, cellOffset cell = some p ∧ rest.mapM cellOffset = some L1 ∧ L = p :: L1 := by
  rw [List.mapM_cons] at h
  cases hp : cellOffset cell with
  | none =>
    rw [hp] at h
    exact absurd h (by simp)
  | some p =>
    cases hr : rest.mapM cellOffset with
    | none =>
      rw [hp, hr] at h
      exact absurd h (by simp)
    | some L1 =>
      rw [hp, hr] at h
      simp only [Option.bind_eq_bind, Option.some_bind, Option.pure_def,
        Option.some.injEq] at h
      exact ⟨p, L1, rfl, rfl, h.symm⟩

theorem mapM_cellOffset_isInt32 (cells : List json) :
    ∀ L, cells.mapM cellOffset = some L → ∀ p ∈ L, isInt32 p.1 ∧ isInt32 p.2 := by
  induction cells with
  | nil =>
    intro L h p hp
    rw [List.mapM_nil] at h
    simp only [Option.pure_def, Option.some.injEq] at h
    subst h
    simp at hp
  | cons cell rest ih =>
    intro L h p hp
    obtain ⟨q, L1, hq, hL1, rfl⟩ := mapM_cellOffset_cons h
    rcases List.mem_cons.1 hp with e | e
    · subst e
      exact cellOffset_isInt32 hq
    · exact ih L1 hL1 p e

/-- The placement loop over the elements of `shape["cells"]`: it returns, keeps
the dimensions, and an in-range cell ends up 1 exactly when one of the offsets
lands on it; the other in-range cells keep their value. -/
theorem place_spec (cr cc : Int) (cells : List json) :
    ∀ (g : ConwayLifeInteractive) (L : List (Int × Int)), g.WellFormed →
      cells.mapM cellOffset = some L →
      ∃ g1, cells.foldlM (placeCell cr cc) g = some g1 ∧ g1.WellFormed ∧
        g1.rows = g.rows ∧ g1.cols = g.cols ∧
        ∀ r c : Int, 0 ≤ r → r < g.rows → 0 ≤ c → c < g.cols →
          g1.getCell r c =
            if ∃ p ∈ L, r = wrap32 (cr + p.2) ∧ c = wrap32 (cc + p.1) then some 1
            else g.getCell r c := by
  induction cells with
  | nil =>
    intro g L hg h
    rw [List.mapM_nil] at h
    simp only [Option.pure_def, Option.some.injEq] at h
    subst h
    exact ⟨g, by simp, hg, rfl, rfl, by simp⟩
  | cons cell rest ih =>
    intro g L hg h
    obtain ⟨p, L1, hp, hL1, rfl⟩ := mapM_cellOffset_cons h
    obtain ⟨g1, hset, hwf1, hr1, hc1, hget1⟩ :=
      setCell_spec hg (wrap32 (cr + p.2)) (wrap32 (cc + p.1)) 1
    obtain ⟨g2, hfold, hwf2, hr2, hc2, hget2⟩ := ih g1 L1 hwf1 hL1
    refine ⟨g2, ?_, hwf2, by omega, by omega, ?_⟩
    · rw [List.foldlM_cons, placeCell_eq, hp]
      simp only [hset, Option.bind_eq_bind, Option.some_bind]
      exact hfold
    · intro r c h1 h2 h3 h4
      rw [hget2 r c h1 (by omega) h3 (by omega), hget1 r c h1 h2 h3 h4]
      by_cases hin : ∃ q ∈ L1, r = wrap32 (cr + q.2) ∧ c = wrap32 (cc + q.1)
      · have : ∃ q ∈ p :: L1, r = wrap32 (cr + q.2) ∧ c = wrap32 (cc + q.1) := by
          obtain ⟨q, hq, e⟩ := hin
          exact ⟨q, List.mem_cons_of_mem _ hq, e⟩
        rw [if_pos hin, if_pos this]
      · rw [if_neg hin]
        by_cases hhd : r = wrap32 (cr + p.2) ∧ c = wrap32 (cc + p.1)
        · have : ∃ q ∈ p :: L1, r = wrap32 (cr + q.2) ∧ c = wrap32 (cc + q.1) :=
            ⟨p, List.mem_cons_self _ _, hhd⟩
          rw [if_pos hhd, if_pos this]
          simp
        · have : ¬ ∃ q ∈ p :: L1, r = wrap32 (cr + q.2) ∧ c = wrap32 (cc + q.1) := by
            rintro ⟨q, hq, e⟩
            rcases List.mem_cons.1 hq with e1 | e1
            · subst e1
              exact hhd e
            · exact hin ⟨q, e1, e⟩
          rw [if_neg hhd, if_neg this]

theorem gridRows_eq {g : ConwayLifeInteractive} (hg : g.WellFormed) : gridRows g = g.rows := by
  unfold gridRows getGridRef
  rw [hg.2.2.1]
  exact wrap32_of_isInt32 hg.1

theorem gridCols_eq {g : ConwayLifeInteractive} (hg : g.WellFormed) (hpos : 0 < g.rows) :
    gridCols g = some g.cols := by
  obtain ⟨row, hrow, hlen⟩ := wf_exists_row hg (i := 0) (by omega)
  unfold gridCols
  rw [gridRows_eq hg, if_pos hpos]
  simp only [getGridRef, hrow, hlen]
  rw [wrap32_of_isInt32 hg.2.1]

/-- In a grid of `R` rows an `int` offset `y` added to the centre row, wrapped
to `int`, names the in-range row `r` exactly when the exact sum does. -/
theorem centre_wrap_iff {R r y : Int} (hR : isInt32 R) (hy : isInt32 y)
    (h0 : 0 ≤ r) (h1 : r < R) : r = wrap32 (R / 2 + y) ↔ r = R / 2 + y := by
  unfold isInt32 at hR hy
  unfold wrap32
  omega

/-- The three early tests of `loadPattern` pass and the centre column is
computed whenever the catalog has the shape. -/
theorem gridCols_some {g : ConwayLifeInteractive} (hg : g.WellFormed) :
    ∃ cv, gridCols g = some cv ∧ (0 < g.rows → cv = g.cols) := by
  by_cases hpos : 0 < g.rows
  · exact ⟨g.cols, gridCols_eq hg hpos, fun _ => rfl⟩
  · refine ⟨0, ?_, fun h => absurd h hpos⟩
    unfold gridCols
    rw [gridRows_eq hg, if_neg hpos]

/-- Function `loadPattern` on a catalog that has the shape: the grid is cleared and
then the offsets are placed around `(rows / 2, cols / 2)`. -/
theorem loadPattern_spec {pd : json} {g : ConwayLifeInteractive} {name : String}
    {L : List (Int × Int)} (hg : g.WellFormed) (hL : catalogOffsets pd name = some L) :
    ∃ g1, loadPattern pd g name = some g1 ∧ g1.WellFormed ∧ g1.rows = g.rows ∧
      g1.cols = g.cols ∧
      ∀ r c : Int, 0 ≤ r → r < g.rows → 0 ≤ c → c < g.cols →
        g1.getCell r c =
          if ∃ p ∈ L, r = g.rows / 2 + p.2 ∧ c = g.cols / 2 + p.1 then some 1 else some 0 := by
  unfold catalogOffsets at hL
  cases h1 : pd.index "shapes" with
  | none => rw [h1] at hL; exact absurd hL (by simp)
  | some shapes =>
    rw [h1] at hL
    dsimp only at hL
    cases h2 : shapes.index name with
    | none => rw [h2] at hL; exact absurd hL (by simp)
    | some shape =>
      rw [h2] at hL
      dsimp only at hL
      cases h3 : shape.index "cells" with
      | none => rw [h3] at hL; exact absurd hL (by simp)
      | some cells =>
        rw [h3] at hL
        dsimp only at hL
        obtain ⟨cv, hcv, hcveq⟩ := gridCols_some hg
        obtain ⟨g0, hclr, hwf0, hr0, hc0, hdead⟩ := clearAll_spec hg
        obtain ⟨g1, hfold, hwf1, hr1, hc1, hget⟩ :=
          place_spec (Int.tdiv (gridRows g) 2) (Int.tdiv cv 2) cells.items g0 L hwf0 hL
        refine ⟨g1, ?_, hwf1, by omega, by omega, ?_⟩
        · unfold loadPattern
          rw [json_not_null_of_index h1, json_contains_of_index h1]
          have e1 : (false || !true) = false := rfl
          have e2 : (!true) = false := rfl
          rw [e1, if_neg (by decide), h1, Option.some_bind, json_contains_of_index h2,
            e2, if_neg (by decide), h2, Option.some_bind, hcv, Option.some_bind]
          show (g.clearAll.bind fun cleared => (shape.index "cells").bind fun cells =>
            cells.items.foldlM (placeCell (Int.tdiv (gridRows g) 2) (Int.tdiv cv 2)) cleared)
              = some g1
          rw [hclr, Option.some_bind, h3, Option.some_bind]
          exact hfold
        · intro r c hr hr2 hc hc2
          have hrows := hg.1
          have hcols := hg.2.1
          have hcv2 : cv = g.cols := hcveq (by omega)
          have hints := mapM_cellOffset_isInt32 cells.items L hL
          rw [hget r c hr (by omega) hc (by omega), hdead r c hr hr2 hc hc2,
            gridRows_eq hg, hcv2,
            Int.tdiv_eq_ediv (by omega) (by omega), Int.tdiv_eq_ediv (by omega) (by omega)]
          have hiff : (∃ p ∈ L, r = wrap32 (g.rows / 2 + p.2) ∧ c = wrap32 (g.cols / 2 + p.1)) ↔
              (∃ p ∈ L, r = g.rows / 2 + p.2 ∧ c = g.cols / 2 + p.1) := by
            constructor
            · rintro ⟨p, hp, e1, e2⟩
              exact ⟨p, hp, (centre_wrap_iff hrows (hints p hp).2 hr hr2).1 e1,
                (centre_wrap_iff hcols (hints p hp).1 hc hc2).1 e2⟩
            · rintro ⟨p, hp, e1, e2⟩
              exact ⟨p, hp, (centre_wrap_iff hrows (hints p hp).2 hr hr2).2 e1,
                (centre_wrap_iff hcols (hints p hp).1 hc hc2).2 e2⟩
          by_cases hex : ∃ p ∈ L, r = g.rows / 2 + p.2 ∧ c = g.cols / 2 + p.1
          · rw [if_pos hex, if_pos (hiff.2 hex)]
          · rw [if_neg hex, if_neg (fun h => hex (hiff.1 h))]

/-- Function `loadPattern` returns the grid as it received it when the catalog has no
shape of the requested name. -/
theorem loadPattern_missing {pd : json} (g : ConwayLifeInteractive) {name : String}
    (h : catalogLookup pd name = none) : loadPattern pd g name = some g := by
  unfold loadPattern
  by_cases h0 : (pd.is_null || !pd.contains "shapes") = true
  · rw [if_pos h0]
  · rw [if_neg h0]
    have hc : pd.contains "shapes" = true := by
      cases hh : pd.contains "shapes" with
      | true => rfl
      | false => simp [hh] at h0
    obtain ⟨shapes, hs⟩ := json_index_of_contains hc
    unfold catalogLookup at h
    rw [hs] at h
    simp only at h
    have hn : shapes.contains name = false := by
      cases hh : shapes.contains name with
      | false => rfl
      | true =>
        obtain ⟨v, hv⟩ := json_index_of_contains hh
        rw [hv] at h
        exact absurd h (by simp)
    have e3 : (!false) = true := rfl
    rw [hs, Option.some_bind, hn, e3, if_pos rfl]

/-! ## `loadPattern`: the claims -/

/-- C4: centre placement. On a well-formed `rows × cols` grid, whatever it
holds, and a catalog that has the requested name with offset list `L`,
`loadPattern` returns; afterwards an in-range cell `(r, c)` is alive (1) if and
only if some `(x, y)` in `L` has `r = rows / 2 + y` and `c = cols / 2 + x`
(floor division), and is dead (0) otherwise. Offsets that land outside the grid
are dropped, so a list landing entirely outside gives an all-dead grid. -/
theorem C4_loadPattern_centre (pd : json) (g : ConwayLifeInteractive) (name : String)
    (L : List (Int × Int)) (hg : g.WellFormed) (hL : catalogOffsets pd name = some L) :
    ∃ g1, loadPattern pd g name = some g1 ∧ g1.rows = g.rows ∧ g1.cols = g.cols ∧
      (∀ r c : Int, 0 ≤ r → r < g.rows → 0 ≤ c → c < g.cols →
        (g1.getCell r c = some 1 ↔ ∃ p ∈ L, r = g.rows / 2 + p.2 ∧ c = g.cols / 2 + p.1) ∧
        (g1.getCell r c = some 0 ↔ ¬ ∃ p ∈ L, r = g.rows / 2 + p.2 ∧ c = g.cols / 2 + p.1)) ∧
      ((∀ p ∈ L, g.rows / 2 + p.2 < 0 ∨ g.rows / 2 + p.2 ≥ g.rows ∨
          g.cols / 2 + p.1 < 0 ∨ g.cols / 2 + p.1 ≥ g.cols) →
        ∀ r c : Int, 0 ≤ r → r < g.rows → 0 ≤ c → c < g.cols → g1.getCell r c = some 0) := by
  obtain ⟨g1, hload, _, hr, hc, hget⟩ := loadPattern_spec hg hL
  refine ⟨g1, hload, hr, hc, ?_, ?_⟩
  · intro r c h1 h2 h3 h4
    rw [hget r c h1 h2 h3 h4]
    by_cases hex : ∃ p ∈ L, r = g.rows / 2 + p.2 ∧ c = g.cols / 2 + p.1
    · simp [hex]
    · simp [hex]
  · intro hout r c h1 h2 h3 h4
    rw [hget r c h1 h2 h3 h4]
    have hex : ¬ ∃ p ∈ L, r = g.rows / 2 + p.2 ∧ c = g.cols / 2 + p.1 := by
      rintro ⟨p, hp, e1, e2⟩
      have := hout p hp
      omega
    rw [if_neg hex]

/-- C4, the instance named in the claim: the single offset `(0, 0)` loaded
onto a 10 × 10 grid of live cells leaves exactly cell `(5, 5)` alive. -/
theorem C4_loadPattern_centre_witness :
    fullGrid10.WellFormed ∧ catalogOffsets dotCatalog "dot" = some [(0, 0)] ∧
    ∃ g1, loadPattern dotCatalog fullGrid10 "dot" = some g1 ∧
      ∀ r c : Int, 0 ≤ r → r < 10 → 0 ≤ c → c < 10 →
        (g1.getCell r c = some 1 ↔ (r = 5 ∧ c = 5)) ∧
        (g1.getCell r c = some 0 ↔ ¬ (r = 5 ∧ c = 5)) := by
  refine ⟨by decide, by decide, ?_⟩
  obtain ⟨g1, hload, _, _, hcells, _⟩ :=
    C4_loadPattern_centre dotCatalog fullGrid10 "dot" [(0, 0)] (by decide) (by decide)
  refine ⟨g1, hload, ?_⟩
  intro r c h1 h2 h3 h4
  have h := hcells r c h1 h2 h3 h4
  simp only [fullGrid10, List.mem_singleton, exists_eq_left] at h
  have e : (r = (10 : Int) / 2 + 0 ∧ c = (10 : Int) / 2 + 0) ↔ (r = 5 ∧ c = 5) := by
    constructor <;> intro h <;> omega
  rw [e] at h
  exact h

/-- C5 as stated fails: with a catalog that has no shape `"glider"`, the
2 × 2 grid of live cells is returned as it is, so the in-range cell `(0, 0)` is
still alive after the call. -/
theorem C5_not_cleared_counterexample :
    fullGrid2.WellFormed ∧ catalogLookup emptyCatalog "glider" = none ∧
    loadPattern emptyCatalog fullGrid2 "glider" = some fullGrid2 ∧
    ((loadPattern emptyCatalog fullGrid2 "glider").bind fun g1 => g1.getCell 0 0) = some 1 :=
  ⟨by decide, rfl, by decide, by decide⟩

/-- C5, amended: when the catalog has no shape of the requested name,
`loadPattern` returns and the grid is exactly as it was before the call, not
cleared: the returned state is the grid passed in, so every cell reads as
before; in particular a cell is dead (0) after the call exactly when it was
dead before, and the grid is in its clear state afterwards exactly when it was
in its clear state before. -/
theorem C5_loadPattern_missing_keeps_state (pd : json) (g : ConwayLifeInteractive)
    (name : String) (h : catalogLookup pd name = none) :
    loadPattern pd g name = some g ∧
    ∃ g1, loadPattern pd g name = some g1 ∧ g1 = g ∧ g1.grid = g.grid ∧
      g1.rows = g.rows ∧ g1.cols = g.cols ∧
      (∀ r c : Int, g1.getCell r c = g.getCell r c) ∧
      (∀ r c : Int, g1.getCell r c = some 0 ↔ g.getCell r c = some 0) ∧
      ((∀ r c : Int, 0 ≤ r → r < g1.rows → 0 ≤ c → c < g1.cols → g1.getCell r c = some 0) ↔
        (∀ r c : Int, 0 ≤ r → r < g.rows → 0 ≤ c → c < g.cols → g.getCell r c = some 0)) :=
  ⟨loadPattern_missing g h,
    g, loadPattern_missing g h, rfl, rfl, rfl, rfl, fun _ _ => rfl, fun _ _ => Iff.rfl, Iff.rfl⟩

/-- C5, amended, at the empty catalog and the 2 × 2 grid of live cells: the
grid comes back with its four live cells. -/
theorem C5_loadPattern_missing_keeps_state_witness :
    catalogLookup emptyCatalog "glider" = none ∧
    loadPattern emptyCatalog fullGrid2 "glider" = some ⟨2, 2, [[1, 1], [1, 1]]⟩ ∧
    (loadPattern emptyCatalog fullGrid2 "glider" = some fullGrid2 ∧
    ∃ g1, loadPattern emptyCatalog fullGrid2 "glider" = some g1 ∧ g1 = fullGrid2 ∧
      g1.grid = fullGrid2.grid ∧ g1.rows = fullGrid2.rows ∧ g1.cols = fullGrid2.cols ∧
      (∀ r c : Int, g1.getCell r c = fullGrid2.getCell r c) ∧
      (∀ r c : Int, g1.getCell r c = some 0 ↔ fullGrid2.getCell r c = some 0) ∧
      ((∀ r c : Int, 0 ≤ r → r < g1.rows → 0 ≤ c → c < g1.cols → g1.getCell r c = some 0) ↔
        (∀ r c : Int, 0 ≤ r → r < fullGrid2.rows → 0 ≤ c → c < fullGrid2.cols →
          fullGrid2.getCell r c = some 0))) :=
  ⟨rfl, by decide, C5_loadPattern_missing_keeps_state emptyCatalog fullGrid2 "glider" rfl⟩

/-- C6: when the pattern data is null, has no `"shapes"` key, or its
`"shapes"` has no entry of the requested name, `loadPattern` returns normally
and the grid is in its pre-call state: every cell reads as before the call.
This holds for every grid value. -/
theorem C6_loadPattern_unknown_unchanged (pd : json) (g : ConwayLifeInteractive)
    (name : String)
    (h : pd.is_null = true ∨ pd.contains "shapes" = false ∨
      ∃ shapes, pd.index "shapes" = some shapes ∧ shapes.contains name = false) :
    ∃ g1, loadPattern pd g name = some g1 ∧ g1.grid = g.grid ∧ g1.rows = g.rows ∧
      g1.cols = g.cols ∧ ∀ r c : Int, g1.getCell r c = g.getCell r c := by
  refine ⟨g, ?_, rfl, rfl, rfl, fun _ _ => rfl⟩
  rcases h with h | h | ⟨shapes, hs, hn⟩
  · unfold loadPattern
    rw [h]
    rfl
  · unfold loadPattern
    rw [h]
    have e : (pd.is_null || !false) = true := by cases pd.is_null <;> rfl
    rw [if_pos e]
  · apply loadPattern_missing
    unfold catalogLookup
    rw [hs]
    cases hi : shapes.index name with
    | none => exact hi
    | some v =>
      rw [json_contains_of_index hi] at hn
      exact absurd hn (by simp)

/-- C6 at null pattern data and the 2 × 2 grid of live cells. -/
theorem C6_loadPattern_unknown_unchanged_witness :
    json.null.is_null = true ∧
    ∃ g1, loadPattern json.null fullGrid2 "glider" = some g1 ∧ g1.grid = fullGrid2.grid ∧
      g1.rows = fullGrid2.rows ∧ g1.cols = fullGrid2.cols ∧
      ∀ r c : Int, g1.getCell r c = fullGrid2.getCell r c :=
  ⟨rfl, C6_loadPattern_unknown_unchanged json.null fullGrid2 "glider" (Or.inl rfl)⟩

/-! ## Program 02: helper lemmas -/

theorem boundsStep_min_x (b : Bounds) (c : Cell) :
    (boundsStep b c).min_x = if c.x < b.min_x then c.x else b.min_x := by
  unfold boundsStep
  dsimp only
  split_ifs <;> rfl

theorem boundsStep_max_x (b : Bounds) (c : Cell) :
    (boundsStep b c).max_x = if c.x > b.max_x then c.x else b.max_x := by
  unfold boundsStep
  dsimp only
  split_ifs <;> rfl

theorem boundsStep_min_y (b : Bounds) (c : Cell) :
    (boundsStep b c).min_y = if c.y < b.min_y then c.y else b.min_y := by
  unfold boundsStep
  dsimp only
  split_ifs <;> rfl

theorem boundsStep_max_y (b : Bounds) (c : Cell) :
    (boundsStep b c).max_y = if c.y > b.max_y then c.y else b.max_y := by
  unfold boundsStep
  dsimp only
  split_ifs <;> rfl

/-- The loop of `compute_bounds` started from the box `b0`: the result
contains `b0` and every cell, and each of its four sides is a side of `b0` or
a coordinate of some cell. -/
theorem foldl_boundsStep_spec (cells : List Cell) :
    ∀ b0 : Bounds, b0.min_x ≤ b0.max_x → b0.min_y ≤ b0.max_y →
      (∀ c ∈ cells, (cells.foldl boundsStep b0).min_x ≤ c.x ∧
        c.x ≤ (cells.foldl boundsStep b0).max_x ∧
        (cells.foldl boundsStep b0).min_y ≤ c.y ∧
        c.y ≤ (cells.foldl boundsStep b0).max_y) ∧
      (cells.foldl boundsStep b0).min_x ≤ b0.min_x ∧
      b0.max_x ≤ (cells.foldl boundsStep b0).max_x ∧
      (cells.foldl boundsStep b0).min_y ≤ b0.min_y ∧
      b0.max_y ≤ (cells.foldl boundsStep b0).max_y ∧
      ((cells.foldl boundsStep b0).min_x = b0.min_x ∨
        ∃ c ∈ cells, c.x = (cells.foldl boundsStep b0).min_x) ∧
      ((cells.foldl boundsStep b0).max_x = b0.max_x ∨
        ∃ c ∈ cells, c.x = (cells.foldl boundsStep b0).max_x) ∧
      ((cells.foldl boundsStep b0).min_y = b0.min_y ∨
        ∃ c ∈ cells, c.y = (cells.foldl boundsStep b0).min_y) ∧
      ((cells.foldl boundsStep b0).max_y = b0.max_y ∨
        ∃ c ∈ cells, c.y = (cells.foldl boundsStep b0).max_y) := by
  induction cells with
  | nil =>
    intro b0 _ _
    simp
  | cons d rest ih =>
    intro b0 hx hy
    have e1 := boundsStep_min_x b0 d
    have e2 := boundsStep_max_x b0 d
    have e3 := boundsStep_min_y b0 d
    have e4 := boundsStep_max_y b0 d
    have hx1 : (boundsStep b0 d).min_x ≤ (boundsStep b0 d).max_x := by
      rw [e1, e2]; split_ifs <;> omega
    have hy1 : (boundsStep b0 d).min_y ≤ (boundsStep b0 d).max_y := by
      rw [e3, e4]; split_ifs <;> omega
    obtain ⟨hall, a1, a2, a3, a4, m1, m2, m3, m4⟩ := ih (boundsStep b0 d) hx1 hy1
    rw [List.foldl_cons]
    have f1 : (boundsStep b0 d).min_x ≤ d.x ∧ (boundsStep b0 d).min_x ≤ b0.min_x ∧
        ((boundsStep b0 d).min_x = b0.min_x ∨ (boundsStep b0 d).min_x = d.x) := by
      rw [e1]; split_ifs <;> omega
    have f2 : d.x ≤ (boundsStep b0 d).max_x ∧ b0.max_x ≤ (boundsStep b0 d).max_x ∧
        ((boundsStep b0 d).max_x = b0.max_x ∨ (boundsStep b0 d).max_x = d.x) := by
      rw [e2]; split_ifs <;> omega
    have f3 : (boundsStep b0 d).min_y ≤ d.y ∧ (boundsStep b0 d).min_y ≤ b0.min_y ∧
        ((boundsStep b0 d).min_y = b0.min_y ∨ (boundsStep b0 d).min_y = d.y) := by
      rw [e3]; split_ifs <;> omega
    have f4 : d.y ≤ (boundsStep b0 d).max_y ∧ b0.max_y ≤ (boundsStep b0 d).max_y ∧
        ((boundsStep b0 d).max_y = b0.max_y ∨ (boundsStep b0 d).max_y = d.y) := by
      rw [e4]; split_ifs <;> omega
    refine ⟨?_, by omega, by omega, by omega, by omega, ?_, ?_, ?_, ?_⟩
    · intro c hc
      rcases List.mem_cons.1 hc with e | e
      · subst e
        refine ⟨by omega, by omega, by omega, by omega⟩
      · exact hall c e
    · rcases m1 with m | ⟨c, hc, m⟩
      · rcases f1.2.2 with k | k
        · exact Or.inl (by omega)
        · exact Or.inr ⟨d, List.mem_cons_self _ _, by omega⟩
      · exact Or.inr ⟨c, List.mem_cons_of_mem _ hc, m⟩
    · rcases m2 with m | ⟨c, hc, m⟩
      · rcases f2.2.2 with k | k
        · exact Or.inl (by omega)
        · exact Or.inr ⟨d, List.mem_cons_self _ _, by omega⟩
      · exact Or.inr ⟨c, List.mem_cons_of_mem _ hc, m⟩
    · rcases m3 with m | ⟨c, hc, m⟩
      · rcases f3.2.2 with k | k
        · exact Or.inl (by omega)
        · exact Or.inr ⟨d, List.mem_cons_self _ _, by omega⟩
      · exact Or.inr ⟨c, List.mem_cons_of_mem _ hc, m⟩
    · rcases m4 with m | ⟨c, hc, m⟩
      · rcases f4.2.2 with k | k
        · exact Or.inl (by omega)
        · exact Or.inr ⟨d, List.mem_cons_self _ _, by omega⟩
      · exact Or.inr ⟨c, List.mem_cons_of_mem _ hc, m⟩

/-- Function `compute_bounds` on a shape with at least one cell: it returns, each side
of the box bounds every cell and is attained by one. -/
theorem compute_bounds_spec {shape : Shape} (h : shape.cells ≠ []) :
    ∃ b, compute_bounds shape = some b ∧
      (∀ c ∈ shape.cells, b.min_x ≤ c.x ∧ c.x ≤ b.max_x ∧ b.min_y ≤ c.y ∧ c.y ≤ b.max_y) ∧
      (∃ c ∈ shape.cells, c.x = b.min_x) ∧ (∃ c ∈ shape.cells, c.x = b.max_x) ∧
      (∃ c ∈ shape.cells, c.y = b.min_y) ∧ (∃ c ∈ shape.cells, c.y = b.max_y) := by
  cases hcells : shape.cells with
  | nil => exact absurd hcells h
  | cons c0 rest =>
    have hmem : c0 ∈ c0 :: rest := List.mem_cons_self _ _
    obtain ⟨hall, _, _, _, _, m1, m2, m3, m4⟩ :=
      foldl_boundsStep_spec (c0 :: rest) ⟨c0.x, c0.x, c0.y, c0.y⟩ (le_refl _) (le_refl _)
    refine ⟨(c0 :: rest).foldl boundsStep ⟨c0.x, c0.x, c0.y, c0.y⟩, ?_, hall, ?_, ?_, ?_, ?_⟩
    · unfold compute_bounds
      rw [hcells]
      simp
    · rcases m1 with m | m
      · exact ⟨c0, hmem, m.symm⟩
      · exact m
    · rcases m2 with m | m
      · exact ⟨c0, hmem, m.symm⟩
      · exact m
    · rcases m3 with m | m
      · exact ⟨c0, hmem, m.symm⟩
      · exact m
    · rcases m4 with m | m
      · exact ⟨c0, hmem, m.symm⟩
      · exact m

/-- When the box `b` contains the cell `c` and its extent is below
`2^31 - 1`, the shift and the size computed in `int` are the exact ones. -/
theorem shift_exact {lo hi v : Int} (h1 : lo ≤ v) (h2 : v ≤ hi) (h3 : hi - lo < 2147483647) :
    wrap32 (v - lo) = v - lo ∧ wrap32 (wrap32 (hi - lo) + 1) = hi - lo + 1 := by
  unfold wrap32
  omega

/-! ## Program 02: the claims -/

/-- C7: for a shape with at least one offset, `compute_bounds` returns a box
whose `min_x`, `max_x`, `min_y`, `max_y` are the minimum and maximum `x` and
`y` over the offsets: each bounds every offset and is attained by one (negative
coordinates included). For the offsets `(-1,-1), (1,1)` the box is
`(-1, 1, -1, 1)` and the shape is 3 cells wide and 3 cells high. -/
theorem C7_compute_bounds_min_max (shape : Shape) (h : shape.cells ≠ []) :
    (∃ b, compute_bounds shape = some b ∧
      (∀ c ∈ shape.cells, b.min_x ≤ c.x ∧ c.x ≤ b.max_x ∧ b.min_y ≤ c.y ∧ c.y ≤ b.max_y) ∧
      (∃ c ∈ shape.cells, c.x = b.min_x) ∧ (∃ c ∈ shape.cells, c.x = b.max_x) ∧
      (∃ c ∈ shape.cells, c.y = b.min_y) ∧ (∃ c ∈ shape.cells, c.y = b.max_y)) ∧
    (compute_bounds diagShape = some ⟨-1, 1, -1, 1⟩ ∧
      shapeWidthCells ⟨-1, 1, -1, 1⟩ = 3 ∧ shapeHeightCells ⟨-1, 1, -1, 1⟩ = 3) :=
  ⟨compute_bounds_spec h, by decide, by decide, by decide⟩

/-- C7 at the shape with offsets `(-1,-1), (1,1)`. -/
theorem C7_compute_bounds_min_max_witness :
    diagShape.cells ≠ [] ∧
    (∃ b, compute_bounds diagShape = some b ∧
      (∀ c ∈ diagShape.cells, b.min_x ≤ c.x ∧ c.x ≤ b.max_x ∧ b.min_y ≤ c.y ∧ c.y ≤ b.max_y) ∧
      (∃ c ∈ diagShape.cells, c.x = b.min_x) ∧ (∃ c ∈ diagShape.cells, c.x = b.max_x) ∧
      (∃ c ∈ diagShape.cells, c.y = b.min_y) ∧ (∃ c ∈ diagShape.cells, c.y = b.max_y)) ∧
    (compute_bounds diagShape = some ⟨-1, 1, -1, 1⟩ ∧
      shapeWidthCells ⟨-1, 1, -1, 1⟩ = 3 ∧ shapeHeightCells ⟨-1, 1, -1, 1⟩ = 3) :=
  ⟨by decide, C7_compute_bounds_min_max diagShape (by decide)⟩

/-- C8: for a shape without offsets `compute_bounds` returns the zero box
without reading `cells[0]`, so the shape counts as 1 cell wide and 1 cell high;
the centring offsets are computed (the divisor is 2, for every box) and the
drawing loop produces no rectangle. -/
theorem C8_empty_shape_zero_box (shape : Shape) (h : shape.cells = []) :
    compute_bounds shape = some ⟨0, 0, 0, 0⟩ ∧
    shapeWidthCells ⟨0, 0, 0, 0⟩ = 1 ∧ shapeHeightCells ⟨0, 0, 0, 0⟩ = 1 ∧
    offsetX ⟨0, 0, 0, 0⟩ = some 290 ∧ offsetY ⟨0, 0, 0, 0⟩ = some 190 ∧
    frameRects shape = some [] ∧
    ∀ b : Bounds, (offsetX b).isSome = true ∧ (offsetY b).isSome = true := by
  have hb : compute_bounds shape = some ⟨0, 0, 0, 0⟩ := by
    unfold compute_bounds
    rw [h]
    rfl
  have hx : offsetX ⟨0, 0, 0, 0⟩ = some 290 := by decide
  have hy : offsetY ⟨0, 0, 0, 0⟩ = some 190 := by decide
  refine ⟨hb, by decide, by decide, hx, hy, ?_, ?_⟩
  · unfold frameRects
    rw [hb, Option.some_bind, hx, Option.some_bind, hy, Option.some_bind, h]
    rfl
  · intro b
    constructor
    · unfold offsetX intDiv
      rw [if_neg (by decide)]
      rfl
    · unfold offsetY intDiv
      rw [if_neg (by decide)]
      rfl

/-- C8 at a shape without offsets. -/
theorem C8_empty_shape_zero_box_witness :
    emptyShape.cells = [] ∧ compute_bounds emptyShape = some ⟨0, 0, 0, 0⟩ ∧
    shapeWidthCells ⟨0, 0, 0, 0⟩ = 1 ∧ shapeHeightCells ⟨0, 0, 0, 0⟩ = 1 ∧
    offsetX ⟨0, 0, 0, 0⟩ = some 290 ∧ offsetY ⟨0, 0, 0, 0⟩ = some 190 ∧
    frameRects emptyShape = some [] ∧
    ∀ b : Bounds, (offsetX b).isSome = true ∧ (offsetY b).isSome = true :=
  ⟨rfl, C8_empty_shape_zero_box emptyShape rfl⟩

/-- C9 as stated fails in `int` arithmetic: for the offsets
`(-2147483648, 0), (2147483647, 0)` the box is `(-2147483648, 2147483647, 0, 0)`,
the shifted `x` of the second offset is `-1`, below 0, and the width
`max_x - min_x + 1` comes out as 0. -/
theorem C9_shift_overflow_counterexample :
    wideShape.cells ≠ [] ∧
    compute_bounds wideShape = some ⟨-2147483648, 2147483647, 0, 0⟩ ∧
    (⟨2147483647, 0⟩ : Cell) ∈ wideShape.cells ∧
    gridX ⟨-2147483648, 2147483647, 0, 0⟩ ⟨2147483647, 0⟩ = -1 ∧
    shapeWidthCells ⟨-2147483648, 2147483647, 0, 0⟩ = 0 ∧
    ¬ (0 ≤ gridX ⟨-2147483648, 2147483647, 0, 0⟩ ⟨2147483647, 0⟩) := by
  decide

/-- C9, amended: for a shape with at least one offset in which any two offsets
differ by less than `2^31 - 1` in each coordinate, with `b` the box returned by
`compute_bounds`: the width and height are `max - min + 1`, every shifted
offset is `(x - b.min_x, y - b.min_y)` and lies in
`[0, width) × [0, height)`, some offset has shifted `x` equal to 0 and some has
shifted `y` equal to 0, some has shifted `x` equal to `width - 1` and some has
shifted `y` equal to `height - 1`. The offsets `(-1,-1), (1,1)` shift to
`(0,0), (2,2)`. -/
theorem C9_shift_normalises (shape : Shape) (h : shape.cells ≠ [])
    (hext : ∀ c ∈ shape.cells, ∀ d ∈ shape.cells,
      c.x - d.x < 2147483647 ∧ c.y - d.y < 2147483647) :
    (∃ b, compute_bounds shape = some b ∧
      shapeWidthCells b = b.max_x - b.min_x + 1 ∧
      shapeHeightCells b = b.max_y - b.min_y + 1 ∧
      (∀ c ∈ shape.cells, gridX b c = c.x - b.min_x ∧ gridY b c = c.y - b.min_y ∧
        0 ≤ gridX b c ∧ gridX b c < shapeWidthCells b ∧
        0 ≤ gridY b c ∧ gridY b c < shapeHeightCells b) ∧
      (∃ c ∈ shape.cells, gridX b c = 0) ∧ (∃ c ∈ shape.cells, gridY b c = 0) ∧
      (∃ c ∈ shape.cells, gridX b c = shapeWidthCells b - 1) ∧
      (∃ c ∈ shape.cells, gridY b c = shapeHeightCells b - 1)) ∧
    diagShape.cells.map (fun c => (gridX ⟨-1, 1, -1, 1⟩ c, gridY ⟨-1, 1, -1, 1⟩ c))
      = [(0, 0), (2, 2)] := by
  refine ⟨?_, by decide⟩
  obtain ⟨b, hb, hall, ⟨cx0, hcx0, ex0⟩, ⟨cx1, hcx1, ex1⟩, ⟨cy0, hcy0, ey0⟩,
    ⟨cy1, hcy1, ey1⟩⟩ := compute_bounds_spec h
  have hxext : b.max_x - b.min_x < 2147483647 := by
    have := (hext cx1 hcx1 cx0 hcx0).1
    omega
  have hyext : b.max_y - b.min_y < 2147483647 := by
    have := (hext cy1 hcy1 cy0 hcy0).2
    omega
  have hw : shapeWidthCells b = b.max_x - b.min_x + 1 :=
    (shift_exact (hall cx0 hcx0).1 (hall cx0 hcx0).2.1 hxext).2
  have hh : shapeHeightCells b = b.max_y - b.min_y + 1 :=
    (shift_exact (hall cy0 hcy0).2.2.1 (hall cy0 hcy0).2.2.2 hyext).2
  have hgx : ∀ c ∈ shape.cells, gridX b c = c.x - b.min_x := fun c hc =>
    (shift_exact (hall c hc).1 (hall c hc).2.1 hxext).1
  have hgy : ∀ c ∈ shape.cells, gridY b c = c.y - b.min_y := fun c hc =>
    (shift_exact (hall c hc).2.2.1 (hall c hc).2.2.2 hyext).1
  refine ⟨b, hb, hw, hh, ?_, ⟨cx0, hcx0, ?_⟩, ⟨cy0, hcy0, ?_⟩, ⟨cx1, hcx1, ?_⟩,
    ⟨cy1, hcy1, ?_⟩⟩
  · intro c hc
    have hc4 := hall c hc
    rw [hw, hh, hgx c hc, hgy c hc]
    refine ⟨rfl, rfl, by omega, by omega, by omega, by omega⟩
  · rw [hgx cx0 hcx0]; omega
  · rw [hgy cy0 hcy0]; omega
  · rw [hgx cx1 hcx1, hw]; omega
  · rw [hgy cy1 hcy1, hh]; omega

/-- C9, amended, at the shape with offsets `(-1,-1), (1,1)`. -/
theorem C9_shift_normalises_witness :
    diagShape.cells ≠ [] ∧
    (∃ b, compute_bounds diagShape = some b ∧
      shapeWidthCells b = b.max_x - b.min_x + 1 ∧
      shapeHeightCells b = b.max_y - b.min_y + 1 ∧
      (∀ c ∈ diagShape.cells, gridX b c = c.x - b.min_x ∧ gridY b c = c.y - b.min_y ∧
        0 ≤ gridX b c ∧ gridX b c < shapeWidthCells b ∧
        0 ≤ gridY b c ∧ gridY b c < shapeHeightCells b) ∧
      (∃ c ∈ diagShape.cells, gridX b c = 0) ∧ (∃ c ∈ diagShape.cells, gridY b c = 0) ∧
      (∃ c ∈ diagShape.cells, gridX b c = shapeWidthCells b - 1) ∧
      (∃ c ∈ diagShape.cells, gridY b c = shapeHeightCells b - 1)) ∧
    diagShape.cells.map (fun c => (gridX ⟨-1, 1, -1, 1⟩ c, gridY ⟨-1, 1, -1, 1⟩ c))
      = [(0, 0), (2, 2)] :=
  ⟨by decide, C9_shift_normalises diagShape (by decide) (by decide)⟩

/-! ## The automaton engine: helper lemmas and the claim -/

/-- On a well-formed grid `getCell` returns, and returns the state the engine
sees. -/
theorem getCell_eq_currentState {g : ConwayLifeInteractive} (hg : g.WellFormed) (r c : Int) :
    g.getCell r c = some (currentState g r c) := by
  unfold getCell currentState
  by_cases h : r < 0 ∨ r ≥ g.rows ∨ c < 0 ∨ c ≥ g.cols
  · rw [if_pos h, if_pos h]
  · rw [if_neg h, if_neg h]
    obtain ⟨row, hrow, hlen⟩ := wf_exists_row hg (i := r.toNat) (by omega)
    have hc : c.toNat < row.length := by omega
    simp [load, hrow, List.getElem?_eq_getElem hc]

theorem currentState_binary {g : ConwayLifeInteractive} (hb : g.Binary) (r c : Int) :
    currentState g r c = 0 ∨ currentState g r c = 1 := by
  unfold currentState
  by_cases h : r < 0 ∨ r ≥ g.rows ∨ c < 0 ∨ c ≥ g.cols
  · rw [if_pos h]
    exact Or.inl rfl
  · rw [if_neg h]
    unfold load
    cases hrow : g.grid[r.toNat]? with
    | none => exact Or.inl rfl
    | some row =>
      dsimp only
      cases hv : row[c.toNat]? with
      | none => exact Or.inl rfl
      | some v => exact hb row (List.getElem?_mem hrow) v (List.getElem?_mem hv)

theorem liveNeighbors_eq {g : ConwayLifeInteractive} (hg : g.WellFormed) (r c : Int) :
    liveNeighbors g r c = aliveNeighbours g r c := by
  simp only [liveNeighbors, adjacent, aliveNeighbours, aliveAt, getCell_eq_currentState hg,
    List.countP_cons, List.countP_nil, Option.some.injEq, decide_eq_true_eq]
  omega

theorem step_getCell {g : ConwayLifeInteractive} (r c : Int)
    (hr0 : 0 ≤ r) (hr : r < g.rows) (hc0 : 0 ≤ c) (hc : c < g.cols) :
    (step g).getCell r c = some (nextState (currentState g r c) (liveNeighbors g r c)) := by
  have hcond : ¬ (r < 0 ∨ r ≥ (step g).rows ∨ c < 0 ∨ c ≥ (step g).cols) := by
    show ¬ (r < 0 ∨ r ≥ g.rows ∨ c < 0 ∨ c ≥ g.cols)
    omega
  have h1 : r.toNat < g.rows.toNat := by omega
  have h2 : c.toNat < g.cols.toNat := by omega
  have e1 : ((r.toNat : Nat) : Int) = r := by omega
  have e2 : ((c.toNat : Nat) : Int) = c := by omega
  unfold getCell
  rw [if_neg hcond]
  simp [load, step, List.getElem?_map, List.getElem?_range, h1, h2, e1, e2]

theorem step_wf {g : ConwayLifeInteractive} (hg : g.WellFormed) :
    (step g).WellFormed ∧ (step g).Binary := by
  refine ⟨⟨hg.1, hg.2.1, ?_, ?_⟩, ?_⟩
  · have := hg.2.2.1
    simp only [step, List.length_map, List.length_range]
    omega
  · intro row hrow
    simp only [step, List.mem_map, List.mem_range] at hrow
    obtain ⟨i, hi, rfl⟩ := hrow
    obtain ⟨row0, _, hlen⟩ := wf_exists_row hg (i := 0) (by omega)
    simp only [List.length_map, List.length_range]
    show ((g.cols.toNat : Nat) : Int) = g.cols
    omega
  · intro row hrow v hv
    simp only [step, List.mem_map, List.mem_range] at hrow
    obtain ⟨i, _, rfl⟩ := hrow
    simp only [List.mem_map, List.mem_range] at hv
    obtain ⟨j, _, rfl⟩ := hv
    unfold nextState
    split_ifs <;> simp

/-- C10: one `step` of the engine (modelled from spec §4.2) on a valid grid
returns a valid grid of the same dimensions in which an in-range cell is alive
if and only if, in the grid before the step, it was alive with exactly 2 or 3
live neighbours or dead with exactly 3, and is dead otherwise. The neighbours
are the 8 adjacent positions read with `getCell` in the pre-step grid, so a
position outside `[0, rows) × [0, cols)` counts as dead and nothing wraps
around. -/
theorem C10_step_rule (g : ConwayLifeInteractive) (hg : g.WellFormed) (hb : g.Binary)
    (r c : Int) (hr0 : 0 ≤ r) (hr : r < g.rows) (hc0 : 0 ≤ c) (hc : c < g.cols) :
    (step g).WellFormed ∧ (step g).Binary ∧
    (step g).rows = g.rows ∧ (step g).cols = g.cols ∧
    ((step g).getCell r c = some 1 ↔
      (g.getCell r c = some 1 ∧ (aliveNeighbours g r c = 2 ∨ aliveNeighbours g r c = 3)) ∨
      (g.getCell r c = some 0 ∧ aliveNeighbours g r c = 3)) ∧
    ((step g).getCell r c = some 0 ↔
      ¬ ((g.getCell r c = some 1 ∧ (aliveNeighbours g r c = 2 ∨ aliveNeighbours g r c = 3)) ∨
        (g.getCell r c = some 0 ∧ aliveNeighbours g r c = 3))) := by
  obtain ⟨hwf, hbin⟩ := step_wf hg
  refine ⟨hwf, hbin, rfl, rfl, ?_, ?_⟩
  · rw [step_getCell r c hr0 hr hc0 hc, getCell_eq_currentState hg r c,
      ← liveNeighbors_eq hg r c]
    unfold nextState
    rcases currentState_binary hb r c with h | h
    · rw [h]
      by_cases h3 : liveNeighbors g r c = 3
      · simp [h3]
      · simp [h3]
    · rw [h]
      by_cases h2 : liveNeighbors g r c = 2 ∨ liveNeighbors g r c = 3
      · simp [h2]
      · simp [h2]
  · rw [step_getCell r c hr0 hr hc0 hc, getCell_eq_currentState hg r c,
      ← liveNeighbors_eq hg r c]
    unfold nextState
    rcases currentState_binary hb r c with h | h
    · rw [h]
      by_cases h3 : liveNeighbors g r c = 3
      · simp [h3]
      · simp [h3]
    · rw [h]
      by_cases h2 : liveNeighbors g r c = 2 ∨ liveNeighbors g r c = 3
      · simp [h2]
      · simp [h2]

/-- C10 at the centre cell of a horizontal blinker, which has 2 live
neighbours; the whole grid after the step is the vertical blinker. -/
theorem C10_step_rule_witness :
    blinker.WellFormed ∧ blinker.Binary ∧
    step blinker = ⟨3, 3, [[0, 1, 0], [0, 1, 0], [0, 1, 0]]⟩ ∧
    aliveNeighbours blinker 1 1 = 2 ∧
    ((step blinker).WellFormed ∧ (step blinker).Binary ∧
    (step blinker).rows = blinker.rows ∧ (step blinker).cols = blinker.cols ∧
    ((step blinker).getCell 1 1 = some 1 ↔
      (blinker.getCell 1 1 = some 1 ∧
        (aliveNeighbours blinker 1 1 = 2 ∨ aliveNeighbours blinker 1 1 = 3)) ∨
      (blinker.getCell 1 1 = some 0 ∧ aliveNeighbours blinker 1 1 = 3)) ∧
    ((step blinker).getCell 1 1 = some 0 ↔
      ¬ ((blinker.getCell 1 1 = some 1 ∧
          (aliveNeighbours blinker 1 1 = 2 ∨ aliveNeighbours blinker 1 1 = 3)) ∨
        (blinker.getCell 1 1 = some 0 ∧ aliveNeighbours blinker 1 1 = 3)))) :=
  ⟨by decide, by decide, by decide, by decide,
    C10_step_rule blinker (by decide) (by decide) 1 1 (by decide) (by decide) (by decide)
      (by decide)⟩
